import Mathlib

/-!
Verification development for the pySOT kriging interpolant
(`src/pySOT/kriging_interpolant.py`) and the Zakharov benchmark
(`src/pySOT/optimization_problems/zakharov.py`).

The interpolant is a growable sample buffer plus a lazy model-lifecycle
state machine.  Machine state is embedded as an explicit record, numpy
arrays as flat C-order lists of rationals, and Python exceptions as
explicit error values: each operation returns the post-call state paired
with the error it raises (mutations done before the raise stay visible in
the returned state, exactly as on the Python object).
-/

namespace PySOT

/-- Error signals raised by the code, named after the spec's error kinds:
`dimensionMismatch` is the numpy broadcast ValueError from a row assignment
with an incompatible length, `indexError` an out-of-range row index,
`modelNotReady` the AttributeError from using the model handle while it is
still None, `typeError` an operation on an unallocated (None) buffer, and
`notImplemented` Python's NotImplementedError. -/
inductive KErr where
  | dimensionMismatch
  | indexError
  | modelNotReady
  | typeError
  | notImplemented
  deriving Repr, DecidableEq

/-- Flat in-place numpy resize of a vector: keep the data prefix in C order
and zero-fill the tail to length `n`, as `numpy.ndarray.resize` does. -/
def flatResize (l : List ℚ) (n : ℕ) : List ℚ :=
  l.take n ++ List.replicate (n - l.length) (0 : ℚ)

/-- A dense two-dimensional numpy array: `rows * cols` rationals stored flat
in C order. -/
structure NArray where
  rows : ℕ
  cols : ℕ
  data : List ℚ
  deriving Repr, DecidableEq

/-- The `numpy.zeros((r, c))` array. -/
def np_zeros (r c : ℕ) : NArray := ⟨r, c, List.replicate (r * c) 0⟩

/-- Row `i` of flat C-order data with row length `cols`:
`data[cols*i : cols*i + cols]`. -/
def rowOf (data : List ℚ) (cols i : ℕ) : List ℚ :=
  (data.drop (cols * i)).take cols

/-- Row `i` of the array. -/
def NArray.row (a : NArray) (i : ℕ) : List ℚ := rowOf a.data a.cols i

/-- The rows of the array, as a list of lists. -/
def NArray.rowsList (a : NArray) : List (List ℚ) :=
  (List.range a.rows).map a.row

/-- Overwrite row `i` of flat C-order data with `v` (expected to have length
`cols`). -/
def writeRow (data : List ℚ) (cols i : ℕ) (v : List ℚ) : List ℚ :=
  data.take (cols * i) ++ v ++ data.drop (cols * i + cols)

/-- Numpy row assignment `a[i, :] = v` with broadcasting: an exact-length
vector is written as is, a length-1 vector is broadcast across the row, any
other length raises a broadcast error, and an out-of-range index raises. -/
def NArray.setRow (a : NArray) (i : ℕ) (v : List ℚ) : Except KErr NArray :=
  if i < a.rows then
    if v.length = a.cols then
      Except.ok ⟨a.rows, a.cols, writeRow a.data a.cols i v⟩
    else if v.length = 1 then
      Except.ok ⟨a.rows, a.cols, writeRow a.data a.cols i (List.replicate a.cols (v.headD 0))⟩
    else Except.error KErr.dimensionMismatch
  else Except.error KErr.indexError

/-- Numpy in-place `resize((r, c))`: the flat data is kept in C order and
truncated or zero-filled to the new size (rows are reinterpreted whenever `c`
differs from the old column count). -/
def NArray.resize (a : NArray) (r c : ℕ) : NArray :=
  ⟨r, c, flatResize a.data (r * c)⟩

/-- Modelled from the spec: the external regression engine (pyKriging's
`kriging` class) is not part of this repository.  Spec section 6 gives its
contract: `construct(points, values, capacity_hint)`, `train()`,
`addPoint(x, f)`, `predict(x)`.  The handle records the points it holds and
how many completed training passes it has run; `predict` is opaque to the
core, so it is modelled as an arbitrary concrete function of the recorded
data and the query point. -/
structure KrigModel where
  xpts : List (List ℚ)
  fpts : List ℚ
  capacityHint : ℕ
  trainCount : ℕ
  deriving Repr, DecidableEq

/-- Modelled from the spec: the engine constructor
`construct(points, values, capacity_hint)`; the fresh model has run no
training pass yet. -/
def krigNew (xs : List (List ℚ)) (fs : List ℚ) (hint : ℕ) : KrigModel :=
  ⟨xs, fs, hint, 0⟩

/-- Modelled from the spec: `train()` refits against all points known to the
engine; the handle records one more completed training pass. -/
def KrigModel.train (m : KrigModel) : KrigModel :=
  { m with trainCount := m.trainCount + 1 }

/-- Modelled from the spec: the engine's `addPoint(x, f)` incorporates one
new sample without a full retrain. -/
def KrigModel.addPoint (m : KrigModel) (x : List ℚ) (f : ℚ) : KrigModel :=
  { m with xpts := m.xpts ++ [x], fpts := m.fpts ++ [f] }

/-- Modelled from the spec: `predict(x)` returns a scalar estimate.  The
estimate is opaque to the core (spec section 1), so any concrete function of
the model data and query point is a faithful stand-in. -/
def KrigModel.predict (m : KrigModel) (x : List ℚ) : ℚ :=
  (m.fpts.sum + x.sum) / (m.xpts.length + 1)

/-- The state of a `KrigingInterpolant` object: the fields `nump`, `maxp`,
`initp`, `x`, `fx`, `dim`, `k` and `updated` set up in `__init__`.  Python's
`None` is `none`; `updated` is three-valued (`None`/`True`/`False`) hence
`Option Bool`. -/
structure KState where
  nump : ℕ
  maxp : ℕ
  initp : ℕ
  x : Option NArray
  fx : Option (List ℚ)
  dim : Option ℕ
  k : Option KrigModel
  updated : Option Bool
  deriving Repr, DecidableEq

/-- Embeds `__init__(initp, maxp)`. -/
def KState.init (initp maxp : ℕ) : KState :=
  ⟨0, maxp, initp, none, none, none, none, none⟩

/-- Embeds `reset`: it sets `nump = 0` and clears `x` and `fx`, and touches
nothing else (in particular `k`, `updated`, `dim` and `maxp` keep their
values). -/
def KState.reset (st : KState) : KState :=
  { st with nump := 0, x := none, fx := none }

/-- Embeds `_alloc(dim)`: allocate `maxp`-row zero arrays for `x` and `fx`
and record the dimension. -/
def KState.alloc (st : KState) (d : ℕ) : KState :=
  { st with dim := some d
          , x := some (np_zeros st.maxp d)
          , fx := some (List.replicate st.maxp 0) }

/-- Embeds `_realloc(dim, extra)`: allocate on the first point, otherwise
grow `maxp` to `max(maxp*2, maxp+extra)` and resize both arrays in place
whenever `nump + extra > maxp`. -/
def KState.realloc (st : KState) (d : ℕ) (extra : ℕ) : KState :=
  if st.nump = 0 then st.alloc d
  else if st.maxp < st.nump + extra then
    let m := max (st.maxp * 2) (st.maxp + extra)
    { st with maxp := m
            , x := st.x.map (fun a => a.resize m d)
            , fx := st.fx.map (fun l => flatResize l m) }
  else st

/-- Embeds `_model`: build the engine model from the slice `x[:nump+1]` and
`fx[:nump+1]` (the numpy slice clamps at the allocated row count) together
with the capacity hint `maxp`, then run one training pass. -/
def KState.buildModel (st : KState) : KState :=
  match st.x, st.fx with
  | some a, some l =>
      { st with k := some ((krigNew (a.rowsList.take (st.nump + 1)) (l.take (st.nump + 1)) st.maxp).train) }
  | _, _ => st

/-- The buffer phase of `add_point(xx, fx)` (lines `dim = len(xx)` through
`self.nump += 1`): grow storage via `_realloc`, write row `nump` of `x`
(numpy broadcasting included), write entry `nump` of `fx`, and increment
`nump`.  The result pairs the post-phase state with `none` on success or the
raised error; mutations made before a raise (the `_realloc` growth, the `x`
row write) stay visible in the returned state, as they do on the Python
object. -/
def KState.ingest (st : KState) (xx : List ℚ) (f : ℚ) : KState × Option KErr :=
  let st1 := st.realloc xx.length 1
  match st1.x with
  | none => (st1, some KErr.typeError)
  | some a =>
    match a.setRow st1.nump xx with
    | Except.error e => (st1, some e)
    | Except.ok a2 =>
      match st1.fx with
      | none => ({ st1 with x := some a2 }, some KErr.typeError)
      | some l =>
        if st1.nump < l.length then
          ({ st1 with x := some a2, fx := some (l.set st1.nump f), nump := st1.nump + 1 }, none)
        else ({ st1 with x := some a2 }, some KErr.indexError)

/-- The lifecycle phase of `add_point(xx, fx)` (the `if/elif/else` on the
incremented `nump`): collect silently below `initp`, build and train the
model at exactly `initp`, and past `initp` feed the point to the engine's own
`addPoint` and mark the model stale (`updated = True`) without retraining. -/
def KState.lifecycleStep (st2 : KState) (xx : List ℚ) (f : ℚ) : KState × Option KErr :=
  if st2.nump < st2.initp then (st2, none)
  else if st2.nump = st2.initp then (st2.buildModel, none)
  else
    match st2.k with
    | none => (st2, some KErr.modelNotReady)
    | some m => ({ st2 with k := some (m.addPoint xx f), updated := some true }, none)

/-- Embeds `add_point(xx, fx)`: the buffer phase followed, on success, by the
lifecycle phase (the Python body runs them in exactly this sequence). -/
def KState.add_point (st : KState) (xx : List ℚ) (f : ℚ) : KState × Option KErr :=
  match st.ingest xx f with
  | (st2, none) => st2.lifecycleStep xx f
  | (st2, some e) => (st2, some e)

/-- Embeds `eval(xx)`: a truthy `updated` flag retrains the model first, the
flag is then cleared and the engine predicts; a missing model handle raises.
Python's order is kept: when the retrain raises (no handle) the flag is left
untouched, while in the non-stale path the flag is cleared before the failed
predict. -/
def KState.eval (st : KState) (xx : List ℚ) : KState × Except KErr ℚ :=
  match st.updated with
  | some true =>
    match st.k with
    | none => (st, Except.error KErr.modelNotReady)
    | some m =>
      let m2 := m.train
      ({ st with k := some m2, updated := some false }, Except.ok (m2.predict xx))
  | _ =>
    match st.k with
    | none => ({ st with updated := some false }, Except.error KErr.modelNotReady)
    | some m => ({ st with updated := some false }, Except.ok (m.predict xx))

/-- Embeds `evals(xx)`: a strictly sequential loop of `eval` over the input
points; a raise aborts the loop and propagates, exactly as in Python. -/
def KState.evals (st : KState) (xs : List (List ℚ)) : KState × Except KErr (List ℚ) :=
  match xs with
  | [] => (st, Except.ok [])
  | x :: rest =>
    match st.eval x with
    | (st1, Except.error e) => (st1, Except.error e)
    | (st1, Except.ok v) =>
      match st1.evals rest with
      | (st2, Except.error e) => (st2, Except.error e)
      | (st2, Except.ok vs) => (st2, Except.ok (v :: vs))

/-- Embeds `deriv(x)`: it raises NotImplementedError before touching
anything. -/
def KState.deriv (st : KState) (_x : List ℚ) : KState × Except KErr ℚ :=
  (st, Except.error KErr.notImplemented)

/-- The number of allocated rows of the point buffer; 0 before the first
allocation. -/
def KState.capacity (st : KState) : ℕ :=
  match st.x with
  | some a => a.rows
  | none => 0

/-- Structural well-formedness of a state: point and value buffers are
allocated together, have `maxp` rows, carry flat data of a consistent
length, and `nump` never exceeds `maxp`.  Holds for every reachable state. -/
def KState.wfb (st : KState) : Bool :=
  match st.x, st.fx with
  | none, none => st.nump == 0
  | some a, some l =>
      (a.rows == st.maxp) && (l.length == st.maxp) &&
      (a.data.length == a.rows * a.cols) && decide (st.nump ≤ st.maxp)
  | _, _ => false

/-- Run a sequence of `add_point` calls, keeping each call's post-state
whether it succeeded or raised, as the Python object would evolve. -/
def KState.runAdds (st : KState) (ops : List (List ℚ × ℚ)) : KState :=
  ops.foldl (fun s op => (s.add_point op.1 op.2).1) st

/-- The `min` attribute set by `Zakharov.__init__`. -/
def zakharovMin : ℚ := 0

/-- The `minimum` attribute set by `Zakharov.__init__`: `np.zeros(dim)`. -/
def zakharovMinimizer (dim : ℕ) : List ℚ := List.replicate dim 0

/-- The global-optimum value asserted by the class docstring and by the
`info` string built in `__init__` (both read `f(0,0,...,0) = 1`). -/
def zakharovStatedOptimum : ℚ := 1

/-- Modelled from the spec: `OptimizationProblem.__check_input__` lives in
the base class, which is missing from src/; it validates that the query
point has the problem's dimensionality. -/
def zakharovCheckInput (dim : ℕ) (x : List ℚ) : Bool := x.length == dim

/-- Embeds `Zakharov.eval`:
`sum(x**2) + sum(0.5*(1+arange(dim))*x)**2 + sum(0.5*(1+arange(dim))*x)**4`,
guarded by the base-class input check. -/
def zakharovEval (dim : ℕ) (x : List ℚ) : Option ℚ :=
  if zakharovCheckInput dim x then
    let s1 := (x.map (fun t => t ^ 2)).sum
    let s2 := ((((List.range dim).map (fun i => (1 : ℚ) + (i : ℚ))).zip x).map
      (fun p => (1 / 2 : ℚ) * p.1 * p.2)).sum
    some (s1 + s2 ^ 2 + s2 ^ 4)
  else none

/-! ### Helper lemmas about the flat-array primitives -/

theorem flatResize_length (l : List ℚ) (n : ℕ) : (flatResize l n).length = n := by
  unfold flatResize
  simp only [List.length_append, List.length_take, List.length_replicate]
  omega

theorem flatResize_take (l : List ℚ) (m n : ℕ) (hn : n ≤ l.length) (hm : n ≤ m) :
    (flatResize l m).take n = l.take n := by
  unfold flatResize
  rw [List.take_append_of_le_length (by simp only [List.length_take]; omega),
    List.take_take, Nat.min_eq_left hm]

theorem writeRow_length (data v : List ℚ) (cols i : ℕ)
    (hv : v.length = cols) (hle : cols * i + cols ≤ data.length) :
    (writeRow data cols i v).length = data.length := by
  unfold writeRow
  simp only [List.length_append, List.length_take, List.length_drop, hv]
  omega

theorem writeRow_take (data v : List ℚ) (cols i n : ℕ)
    (hn : n ≤ cols * i) (hi : cols * i ≤ data.length) :
    (writeRow data cols i v).take n = data.take n := by
  unfold writeRow
  rw [List.append_assoc,
    List.take_append_of_le_length (by simp only [List.length_take]; omega),
    List.take_take, Nat.min_eq_left hn]

theorem rowOf_eq_take (data : List ℚ) (cols i : ℕ) :
    rowOf data cols i = (data.take (cols * i + cols)).drop (cols * i) := by
  unfold rowOf
  rw [List.drop_take]
  congr 1
  omega

theorem rowOf_eq_of_take_eq (l₁ l₂ : List ℚ) (cols i n : ℕ)
    (h : l₁.take n = l₂.take n) (hn : cols * i + cols ≤ n) :
    rowOf l₁ cols i = rowOf l₂ cols i := by
  have h1 : l₁.take (cols * i + cols) = l₂.take (cols * i + cols) := by
    have h2 := congrArg (List.take (cols * i + cols)) h
    rwa [List.take_take, List.take_take, Nat.min_eq_left hn] at h2
  rw [rowOf_eq_take, rowOf_eq_take, h1]

theorem take_set_of_le (a : ℚ) (n m : ℕ) (l : List ℚ) (h : m ≤ n) :
    (l.set n a).take m = l.take m := by
  apply List.ext_getElem?
  intro i
  rw [List.getElem?_take, List.getElem?_take]
  split
  · rw [List.getElem?_set_ne (by omega)]
  · rfl

theorem setRow_ok_shape (a : NArray) (i : ℕ) (v : List ℚ) (a2 : NArray)
    (hlen : a.data.length = a.rows * a.cols)
    (h : a.setRow i v = Except.ok a2) :
    a2.rows = a.rows ∧ a2.cols = a.cols ∧ a2.data.length = a.data.length ∧ i < a.rows := by
  unfold NArray.setRow at h
  split at h
  · split at h
    · injection h with h2
      subst h2
      refine ⟨rfl, rfl, ?_, by omega⟩
      apply writeRow_length _ _ _ _ (by assumption)
      have : i + 1 ≤ a.rows := by omega
      calc a.cols * i + a.cols = a.cols * (i + 1) := by ring
        _ ≤ a.cols * a.rows := Nat.mul_le_mul_left _ this
        _ = a.data.length := by rw [hlen]; ring
    · split at h
      · injection h with h2
        subst h2
        refine ⟨rfl, rfl, ?_, by omega⟩
        apply writeRow_length _ _ _ _ (by simp)
        have : i + 1 ≤ a.rows := by omega
        calc a.cols * i + a.cols = a.cols * (i + 1) := by ring
          _ ≤ a.cols * a.rows := Nat.mul_le_mul_left _ this
          _ = a.data.length := by rw [hlen]; ring
      · exact absurd h (by simp)
  · exact absurd h (by simp)

theorem setRow_ok_take (a : NArray) (i : ℕ) (v : List ℚ) (a2 : NArray) (n : ℕ)
    (hlen : a.data.length = a.rows * a.cols)
    (h : a.setRow i v = Except.ok a2) (hn : n ≤ a.cols * i) :
    a2.data.take n = a.data.take n := by
  have hi : a.cols * i ≤ a.data.length := by
    have hr : i < a.rows := (setRow_ok_shape a i v a2 hlen h).2.2.2
    calc a.cols * i ≤ a.cols * a.rows := Nat.mul_le_mul_left _ (Nat.le_of_lt hr)
      _ = a.data.length := by rw [hlen]; ring
  unfold NArray.setRow at h
  split at h
  · split at h
    · injection h with h2
      subst h2
      exact writeRow_take _ _ _ _ _ hn hi
    · split at h
      · injection h with h2
        subst h2
        exact writeRow_take _ _ _ _ _ hn hi
      · exact absurd h (by simp)
  · exact absurd h (by simp)

/-! ### Helper lemmas about the interpolant state machine -/

theorem realloc_preserves (st : KState) (d extra : ℕ) :
    (st.realloc d extra).nump = st.nump ∧ (st.realloc d extra).initp = st.initp ∧
    (st.realloc d extra).k = st.k ∧ (st.realloc d extra).updated = st.updated := by
  unfold KState.realloc KState.alloc
  split
  · exact ⟨rfl, rfl, rfl, rfl⟩
  · split
    · exact ⟨rfl, rfl, rfl, rfl⟩
    · exact ⟨rfl, rfl, rfl, rfl⟩

theorem buildModel_preserves (st : KState) :
    (st.buildModel).nump = st.nump ∧ (st.buildModel).x = st.x ∧
    (st.buildModel).fx = st.fx ∧ (st.buildModel).maxp = st.maxp := by
  unfold KState.buildModel
  split
  · exact ⟨rfl, rfl, rfl, rfl⟩
  · exact ⟨rfl, rfl, rfl, rfl⟩

theorem wfb_some_iff (st : KState) (a : NArray) (l : List ℚ)
    (hx : st.x = some a) (hf : st.fx = some l) :
    st.wfb = true ↔
      (a.rows = st.maxp ∧ l.length = st.maxp ∧
       a.data.length = a.rows * a.cols ∧ st.nump ≤ st.maxp) := by
  unfold KState.wfb
  rw [hx, hf]
  simp [and_assoc]

theorem wfb_none_iff (st : KState) (hx : st.x = none) (hf : st.fx = none) :
    st.wfb = true ↔ st.nump = 0 := by
  unfold KState.wfb
  rw [hx, hf]
  simp

theorem wfb_nump_le_capacity (st : KState) (h : st.wfb = true) :
    st.nump ≤ st.capacity := by
  unfold KState.capacity
  cases hx : st.x with
  | none =>
    cases hf : st.fx with
    | none => simp [(wfb_none_iff st hx hf).mp h]
    | some l => exfalso; unfold KState.wfb at h; rw [hx, hf] at h; simp at h
  | some a =>
    cases hf : st.fx with
    | none => exfalso; unfold KState.wfb at h; rw [hx, hf] at h; simp at h
    | some l =>
      have hw := (wfb_some_iff st a l hx hf).mp h
      show st.nump ≤ a.rows
      omega

theorem wfb_congr (s t : KState) (hx : s.x = t.x) (hf : s.fx = t.fx)
    (hn : s.nump = t.nump) (hm : s.maxp = t.maxp) : s.wfb = t.wfb := by
  unfold KState.wfb
  rw [hx, hf, hn, hm]

theorem wfb_mk (n mp ip : ℕ) (a : NArray) (l : List ℚ) (d : Option ℕ)
    (k : Option KrigModel) (u : Option Bool) :
    (KState.mk n mp ip (some a) (some l) d k u).wfb = true ↔
      (a.rows = mp ∧ l.length = mp ∧ a.data.length = a.rows * a.cols ∧ n ≤ mp) := by
  unfold KState.wfb
  simp [and_assoc]

theorem alloc_wf (st : KState) (d : ℕ) (h : st.nump = 0) : (st.alloc d).wfb = true := by
  unfold KState.alloc KState.wfb np_zeros
  simp [h]

theorem realloc_wf (st : KState) (d extra : ℕ) (h : st.wfb = true) :
    (st.realloc d extra).wfb = true := by
  cases hx : st.x with
  | none =>
    cases hf : st.fx with
    | none =>
      have h0 : st.nump = 0 := (wfb_none_iff st hx hf).mp h
      unfold KState.realloc
      rw [if_pos h0]
      exact alloc_wf st d h0
    | some l => exfalso; unfold KState.wfb at h; rw [hx, hf] at h; simp at h
  | some a =>
    cases hf : st.fx with
    | none => exfalso; unfold KState.wfb at h; rw [hx, hf] at h; simp at h
    | some l =>
      have hw := (wfb_some_iff st a l hx hf).mp h
      unfold KState.realloc
      split
      · exact alloc_wf st d (by assumption)
      · split
        · unfold KState.wfb
          simp only [hx, hf, Option.map_some']
          simp [NArray.resize, flatResize_length]
          omega
        · exact h

theorem ingest_wf (st : KState) (xx : List ℚ) (f : ℚ) (h : st.wfb = true) :
    (st.ingest xx f).1.wfb = true := by
  have h1 : (st.realloc xx.length 1).wfb = true := realloc_wf st xx.length 1 h
  unfold KState.ingest
  simp only []
  split
  · exact h1
  · rename_i a ha
    split
    · exact h1
    · rename_i a2 hsr
      split
      · rename_i hf
        exfalso
        unfold KState.wfb at h1
        rw [ha, hf] at h1
        simp at h1
      · rename_i l hf
        obtain ⟨hrows, hflen, hdlen, hnle⟩ := (wfb_some_iff _ a l ha hf).mp h1
        obtain ⟨h2r, h2c, h2d, h2i⟩ := setRow_ok_shape a _ xx a2 hdlen hsr
        split
        · simp only [wfb_mk, List.length_set]
          exact ⟨by omega, by omega, by rw [h2d, h2r, h2c]; exact hdlen, by omega⟩
        · simp only [hf, wfb_mk]
          exact ⟨by omega, by omega, by rw [h2d, h2r, h2c]; exact hdlen, by omega⟩

theorem ingest_success (st : KState) (xx : List ℚ) (f : ℚ)
    (h : (st.ingest xx f).2 = none) :
    (st.ingest xx f).1.nump = st.nump + 1 ∧
    (st.ingest xx f).1.initp = st.initp ∧
    (st.ingest xx f).1.k = st.k ∧
    (st.ingest xx f).1.updated = st.updated := by
  obtain ⟨hr1, hr2, hr3, hr4⟩ := realloc_preserves st xx.length 1
  revert h
  unfold KState.ingest
  simp only []
  split
  · simp
  · split
    · simp
    · split
      · simp
      · split
        · intro _
          exact ⟨by simp [hr1], by simp [hr2], by simp [hr3], by simp [hr4]⟩
        · simp

theorem ingest_error_nump (st : KState) (xx : List ℚ) (f : ℚ)
    (h : (st.ingest xx f).2 ≠ none) :
    (st.ingest xx f).1.nump = st.nump := by
  have hr1 : (st.realloc xx.length 1).nump = st.nump := (realloc_preserves st xx.length 1).1
  revert h
  unfold KState.ingest
  simp only []
  split
  · intro _; exact hr1
  · split
    · intro _; exact hr1
    · split
      · intro _; exact hr1
      · split
        · simp
        · intro _; exact hr1

theorem lifecycle_preserves (st : KState) (xx : List ℚ) (f : ℚ) :
    (st.lifecycleStep xx f).1.x = st.x ∧ (st.lifecycleStep xx f).1.fx = st.fx ∧
    (st.lifecycleStep xx f).1.nump = st.nump ∧ (st.lifecycleStep xx f).1.maxp = st.maxp := by
  unfold KState.lifecycleStep
  split
  · exact ⟨rfl, rfl, rfl, rfl⟩
  · split
    · obtain ⟨h1, h2, h3, h4⟩ := buildModel_preserves st
      exact ⟨h2, h3, h1, h4⟩
    · split
      · exact ⟨rfl, rfl, rfl, rfl⟩
      · exact ⟨rfl, rfl, rfl, rfl⟩

theorem add_point_wf (st : KState) (xx : List ℚ) (f : ℚ) (h : st.wfb = true) :
    (st.add_point xx f).1.wfb = true := by
  have hi := ingest_wf st xx f h
  unfold KState.add_point
  split
  · rename_i st2 heq
    have hst2 : st2.wfb = true := by rw [heq] at hi; exact hi
    obtain ⟨p1, p2, p3, p4⟩ := lifecycle_preserves st2 xx f
    rw [wfb_congr _ st2 p1 p2 p3 p4]
    exact hst2
  · rename_i st2 e heq
    rw [heq] at hi
    exact hi

theorem add_point_nump_mono (st : KState) (xx : List ℚ) (f : ℚ) :
    st.nump ≤ (st.add_point xx f).1.nump ∧
    ((st.add_point xx f).2 = none → (st.add_point xx f).1.nump = st.nump + 1) := by
  unfold KState.add_point
  split
  · rename_i st2 heq
    have h2 : st2.nump = st.nump + 1 := by
      have := (ingest_success st xx f (by rw [heq])).1
      rw [heq] at this
      exact this
    have hp := (lifecycle_preserves st2 xx f).2.2.1
    constructor
    · omega
    · intro _
      omega
  · rename_i st2 e heq
    have h2 : st2.nump = st.nump := by
      have := ingest_error_nump st xx f (by rw [heq]; simp)
      rw [heq] at this
      exact this
    constructor
    · show st.nump ≤ st2.nump
      omega
    · simp

theorem add_point_beyond (st : KState) (m : KrigModel) (xx : List ℚ) (f : ℚ)
    (hk : st.k = some m) (hn : st.initp ≤ st.nump)
    (hs : (st.add_point xx f).2 = none) :
    (st.add_point xx f).1.k = some (m.addPoint xx f) ∧
    (st.add_point xx f).1.updated = some true := by
  revert hs
  unfold KState.add_point
  split
  · rename_i st2 heq
    have h1 : st2.nump = st.nump + 1 := by
      have hh := (ingest_success st xx f (by rw [heq])).1
      rw [heq] at hh
      exact hh
    have h2 : st2.initp = st.initp := by
      have hh := (ingest_success st xx f (by rw [heq])).2.1
      rw [heq] at hh
      exact hh
    have h3 : st2.k = st.k := by
      have hh := (ingest_success st xx f (by rw [heq])).2.2.1
      rw [heq] at hh
      exact hh
    intro _
    unfold KState.lifecycleStep
    rw [if_neg (by omega), if_neg (by omega), h3, hk]
    exact ⟨rfl, rfl⟩
  · rename_i st2 e heq
    simp

theorem eval_ok (st : KState) (xx : List ℚ) (h : st.k ≠ none) :
    (st.eval xx).1.k ≠ none ∧ (st.eval xx).1.updated = some false ∧
      ∃ v, (st.eval xx).2 = Except.ok v := by
  obtain ⟨m, hm⟩ := Option.ne_none_iff_exists'.mp h
  unfold KState.eval
  cases hu : st.updated with
  | none => simp [hm]
  | some b =>
    cases b with
    | false => simp [hm]
    | true => simp [hm]

theorem evals_cons (st st1 : KState) (x : List ℚ) (rest : List (List ℚ)) (v : ℚ)
    (h : st.eval x = (st1, Except.ok v)) :
    (st.evals (x :: rest)).1 = (st1.evals rest).1 ∧
    ((st.evals (x :: rest)).2 =
      match (st1.evals rest).2 with
      | Except.ok vs => Except.ok (v :: vs)
      | Except.error e => Except.error e) := by
  cases hr : st1.evals rest with
  | mk st2 r =>
    simp only [KState.evals]
    rw [h]
    dsimp only
    rw [hr]
    cases r <;> simp

theorem zip_replicate_zero_sum (ws : List ℚ) (n : ℕ) :
    ((ws.zip (List.replicate n (0 : ℚ))).map (fun p => (1 / 2 : ℚ) * p.1 * p.2)).sum = 0 := by
  induction ws generalizing n with
  | nil => simp
  | cons w ws ih =>
    cases n with
    | zero => simp
    | succ n =>
      simp only [List.replicate_succ, List.zip_cons_cons, List.map_cons, List.sum_cons, mul_zero]
      rw [ih n]
      ring

/-! ### Claim theorems -/

/-- C9: for every input point and every state of the interpolant, `deriv`
fails with the NotImplemented signal and performs no state mutation. -/
theorem C9_deriv_always_fails (st : KState) (x : List ℚ) :
    st.deriv x = (st, Except.error KErr.notImplemented) := rfl

/-- C3: in every state whose model handle was never built (`k` is still
`None`, which covers every state with fewer than `initp` points added,
including a freshly constructed instance), `eval` fails with the
ModelNotReady signal. -/
theorem C3_eval_before_model_fails (st : KState) (xx : List ℚ) (h : st.k = none) :
    (st.eval xx).2 = Except.error KErr.modelNotReady := by
  unfold KState.eval
  cases hu : st.updated with
  | none => simp [h]
  | some b => cases b <;> simp [h]

/-- Witness for C3: a freshly constructed instance rejects `eval`. -/
theorem C3_witness :
    (KState.init 10 100).k = none ∧
    ((KState.init 10 100).eval [1]).2 = Except.error KErr.modelNotReady :=
  ⟨rfl, C3_eval_before_model_fails (KState.init 10 100) [1] rfl⟩

/-- C6 counterexample: with `initp = 1, maxp = 2`, adding one point builds a
model, and `reset` then leaves the model handle in place — the state has
count zero but still a model, and differs from a freshly constructed
instance, contrary to the claim. -/
theorem C6_counterexample :
    ((KState.add_point (KState.init 1 2) [5] 7).1.reset).nump = 0 ∧
    ((KState.add_point (KState.init 1 2) [5] 7).1.reset).k ≠ none ∧
    (KState.add_point (KState.init 1 2) [5] 7).1.reset ≠ KState.init 1 2 := by
  refine ⟨rfl, ?_, ?_⟩ <;> decide

/-- C6 amended: `reset` zeroes the point count and discards the point and
value buffers, but keeps the model handle `k`, the staleness flag `updated`,
the recorded `dim` and the current (possibly grown) `maxp`; it is therefore
not equivalent to a freshly constructed instance once a model has been
built. -/
theorem C6_amended_reset (st : KState) :
    st.reset.nump = 0 ∧ st.reset.x = none ∧ st.reset.fx = none ∧
    st.reset.k = st.k ∧ st.reset.updated = st.updated ∧
    st.reset.maxp = st.maxp ∧ st.reset.dim = st.dim ∧ st.reset.initp = st.initp :=
  ⟨rfl, rfl, rfl, rfl, rfl, rfl, rfl, rfl⟩

/-- C1: evaluating the code at `initp = 2, maxp = 4` after inserting the
points `[1] ↦ 10` and `[2] ↦ 20`: the count is 2, yet the model-build step
hands the engine the slice `x[:nump+1]`, i.e. three rows including the
spurious zero row at index 2 — the out-of-range extra row beyond `count`
that the claim (and spec section 4.2) forbids. -/
theorem C1_model_built_with_extra_row :
    ((KState.add_point (KState.add_point (KState.init 2 4) [1] 10).1 [2] 20).1.nump = 2) ∧
    (((KState.add_point (KState.add_point (KState.init 2 4) [1] 10).1 [2] 20).1.k.map
        KrigModel.xpts) = some [[1], [2], [0]]) := by
  exact ⟨rfl, rfl⟩

/-- C2 counterexample: with `dim = 2` established and one stored point
(`initp = 10, maxp = 4`), adding the length-1 vector `[5]` does not fail —
numpy broadcasts it across the row — and the count changes from 1 to 2.
Moreover with a full buffer (`maxp = 2`, two stored points of dimension 2),
adding the length-3 vector `[7, 8, 9]` does not fail either: the
reallocation reshapes the buffer under the new length and the insertion
succeeds. -/
theorem C2_counterexample :
    ((KState.add_point (KState.init 10 4) [1, 2] 3).1.dim = some 2) ∧
    (([5] : List ℚ).length ≠ 2) ∧
    ((KState.add_point (KState.add_point (KState.init 10 4) [1, 2] 3).1 [5] 4).2 = none) ∧
    ((KState.add_point (KState.add_point (KState.init 10 4) [1, 2] 3).1 [5] 4).1.nump = 2) ∧
    (([7, 8, 9] : List ℚ).length ≠ 2) ∧
    (((KState.add_point (KState.add_point (KState.init 5 2) [1, 2] 10).1 [3, 4] 20).1.add_point
        [7, 8, 9] 30).2 = none) ∧
    (((KState.add_point (KState.add_point (KState.init 5 2) [1, 2] 10).1 [3, 4] 20).1.add_point
        [7, 8, 9] 30).1.nump = 3) := by
  refine ⟨rfl, by decide, rfl, rfl, by decide, rfl, rfl⟩

/-- C10: the Zakharov benchmark evaluated at its stored minimizer (the
all-zeros vector) returns exactly 0, which equals its `min` attribute — and
contradicts the optimum value 1 stated by the class docstring and info
string. -/
theorem C10_zakharov_minimum (dim : ℕ) :
    zakharovEval dim (zakharovMinimizer dim) = some zakharovMin ∧
    zakharovMin = 0 ∧ zakharovMin ≠ zakharovStatedOptimum := by
  refine ⟨?_, rfl, by norm_num [zakharovMin, zakharovStatedOptimum]⟩
  unfold zakharovEval zakharovMinimizer zakharovCheckInput
  rw [if_pos (by simp)]
  have hs1 : ((List.replicate dim (0 : ℚ)).map (fun t => t ^ 2)).sum = 0 := by
    rw [List.map_replicate]
    simp
  have hs2 : ((((List.range dim).map (fun i => (1 : ℚ) + (i : ℚ))).zip
      (List.replicate dim (0 : ℚ))).map (fun p => (1 / 2 : ℚ) * p.1 * p.2)).sum = 0 :=
    zip_replicate_zero_sum _ dim
  simp only [hs1, hs2]
  norm_num [zakharovMin]

/-- C4: from any fitted state (model handle present, at least `initp` points
stored), a successful `add_point` feeds the point to the engine without any
training pass and marks the state stale; the next `eval` runs the engine's
training routine exactly once (the train counter increases by exactly one)
and clears the staleness flag; any further `eval` without an intervening
`add_point` leaves the state — and hence the train counter — untouched. -/
theorem C4_lazy_refresh (st : KState) (m : KrigModel) (xx y z : List ℚ) (f : ℚ)
    (hk : st.k = some m) (hn : st.initp ≤ st.nump)
    (hs : (st.add_point xx f).2 = none) :
    (st.add_point xx f).1.k = some (m.addPoint xx f) ∧
    (m.addPoint xx f).trainCount = m.trainCount ∧
    (st.add_point xx f).1.updated = some true ∧
    ((st.add_point xx f).1.eval y).1.k = some ((m.addPoint xx f).train) ∧
    ((m.addPoint xx f).train).trainCount = m.trainCount + 1 ∧
    ((st.add_point xx f).1.eval y).1.updated = some false ∧
    ((st.add_point xx f).1.eval y).2 = Except.ok (((m.addPoint xx f).train).predict y) ∧
    (((st.add_point xx f).1.eval y).1.eval z).1 = ((st.add_point xx f).1.eval y).1 ∧
    (((st.add_point xx f).1.eval y).1.eval z).2 =
      Except.ok (((m.addPoint xx f).train).predict z) := by
  obtain ⟨hak, hau⟩ := add_point_beyond st m xx f hk hn hs
  refine ⟨hak, rfl, hau, ?_⟩
  have he : ((st.add_point xx f).1.eval y) =
      ({ (st.add_point xx f).1 with k := some ((m.addPoint xx f).train), updated := some false },
        Except.ok (((m.addPoint xx f).train).predict y)) := by
    unfold KState.eval
    rw [hau, hak]
  rw [he]
  exact ⟨rfl, rfl, rfl, rfl, rfl, rfl⟩

/-- Witness for C4: a fitted state with `initp = 1` and one stored point; the
extra point `[3] ↦ 4` marks it stale and the next `eval` retrains once. -/
theorem C4_witness :
    ((KState.add_point (KState.init 1 4) [1] 2).1.k =
      some ⟨[[1], [0]], [2, 0], 4, 1⟩) ∧
    ((KState.add_point (KState.init 1 4) [1] 2).1.initp ≤
      (KState.add_point (KState.init 1 4) [1] 2).1.nump) ∧
    (((KState.add_point (KState.init 1 4) [1] 2).1.add_point [3] 4).2 = none) ∧
    (((KState.add_point (KState.init 1 4) [1] 2).1.add_point [3] 4).1.updated = some true) ∧
    ((((KState.add_point (KState.init 1 4) [1] 2).1.add_point [3] 4).1.eval [7]).1.k =
      some ((KrigModel.addPoint ⟨[[1], [0]], [2, 0], 4, 1⟩ [3] 4).train)) ∧
    ((KrigModel.addPoint ⟨[[1], [0]], [2, 0], 4, 1⟩ [3] 4).train.trainCount = 2) :=
  ⟨by decide, by decide, by decide,
    (C4_lazy_refresh (KState.add_point (KState.init 1 4) [1] 2).1 ⟨[[1], [0]], [2, 0], 4, 1⟩
      [3] [7] [8] 4 (by decide) (by decide) (by decide)).2.2.1,
    (C4_lazy_refresh (KState.add_point (KState.init 1 4) [1] 2).1 ⟨[[1], [0]], [2, 0], 4, 1⟩
      [3] [7] [8] 4 (by decide) (by decide) (by decide)).2.2.2.1,
    by decide⟩

/-- C7: with a model built (`k` present), `evals` succeeds, returns exactly
one output per input point in input order, and its i-th output is exactly
what invoking `eval` point-by-point produces: `eval` applied to the i-th
input in the state reached after evaluating the first i inputs. -/
theorem C7_evals_pointwise (st : KState) (xs : List (List ℚ)) (h : st.k ≠ none) :
    ∃ ys, (st.evals xs).2 = Except.ok ys ∧ ys.length = xs.length ∧
      ∀ i, i < xs.length →
        Except.ok (ys.getD i 0) = (((st.evals (xs.take i)).1).eval (xs.getD i [])).2 := by
  induction xs generalizing st with
  | nil =>
    refine ⟨[], rfl, rfl, ?_⟩
    intro i hi
    exact absurd hi (by simp)
  | cons x rest ih =>
    obtain ⟨hk1, hu1, v, hv⟩ := eval_ok st x h
    have hpair : st.eval x = ((st.eval x).1, Except.ok v) := by
      rw [← hv]
    obtain ⟨ys, hys, hlen, hidx⟩ := ih (st.eval x).1 hk1
    obtain ⟨hc1, hc2⟩ := evals_cons st (st.eval x).1 x rest v hpair
    refine ⟨v :: ys, ?_, by simp [hlen], ?_⟩
    · rw [hc2, hys]
    · intro i hi
      cases i with
      | zero =>
        simp only [List.take_zero, List.getD_cons_zero]
        exact hv.symm
      | succ j =>
        have hstate : (st.evals (x :: rest.take j)).1 = (((st.eval x).1).evals (rest.take j)).1 :=
          (evals_cons st (st.eval x).1 x (rest.take j) v hpair).1
        simp only [List.take_succ_cons, List.getD_cons_succ, hstate]
        simp only [List.length_cons] at hi
        exact hidx j (by omega)

/-- Witness for C7: the fitted state with one stored point answers a
two-point batch in order. -/
theorem C7_witness :
    ((KState.add_point (KState.init 1 4) [1] 2).1.k ≠ none) ∧
    (∃ ys, ((KState.add_point (KState.init 1 4) [1] 2).1.evals [[1], [2]]).2 = Except.ok ys ∧
      ys.length = ([[1], [2]] : List (List ℚ)).length ∧
      ∀ i, i < ([[1], [2]] : List (List ℚ)).length →
        Except.ok (ys.getD i 0) =
          ((((KState.add_point (KState.init 1 4) [1] 2).1.evals
              (([[1], [2]] : List (List ℚ)).take i)).1).eval
            (([[1], [2]] : List (List ℚ)).getD i [])).2) :=
  ⟨by decide,
    C7_evals_pointwise (KState.add_point (KState.init 1 4) [1] 2).1 [[1], [2]] (by decide)⟩

/-- C8: starting from any well-formed state, along any insertion sequence
the buffer invariant is preserved, `0 ≤ count ≤ capacity` holds after every
operation, `count` never decreases, and every successful `add_point`
increments `count` by exactly one. -/
theorem C8_count_invariant (st : KState) (ops : List (List ℚ × ℚ)) (h : st.wfb = true) :
    (st.runAdds ops).wfb = true ∧
    st.nump ≤ (st.runAdds ops).nump ∧
    (st.runAdds ops).nump ≤ (st.runAdds ops).capacity ∧
    (∀ s2 xx f, (KState.add_point s2 xx f).2 = none →
      (KState.add_point s2 xx f).1.nump = s2.nump + 1) := by
  have main : ∀ ops2 s2, s2.wfb = true →
      (KState.runAdds s2 ops2).wfb = true ∧ s2.nump ≤ (KState.runAdds s2 ops2).nump := by
    intro ops2
    induction ops2 with
    | nil => exact fun s2 hs => ⟨hs, le_refl _⟩
    | cons op rest ih =>
      intro s2 hs
      have h1 := add_point_wf s2 op.1 op.2 hs
      have h2 := (add_point_nump_mono s2 op.1 op.2).1
      have hrun : KState.runAdds s2 (op :: rest) =
          KState.runAdds (s2.add_point op.1 op.2).1 rest := rfl
      rw [hrun]
      obtain ⟨w1, w2⟩ := ih _ h1
      exact ⟨w1, le_trans h2 w2⟩
  obtain ⟨w1, w2⟩ := main ops st h
  exact ⟨w1, w2, wfb_nump_le_capacity _ w1,
    fun s2 xx f hsucc => (add_point_nump_mono s2 xx f).2 hsucc⟩

/-- Witness for C8: a fresh instance with `initp = 2, maxp = 3` absorbing a
two-point insertion sequence. -/
theorem C8_witness :
    ((KState.init 2 3).wfb = true) ∧
    ((KState.runAdds (KState.init 2 3) [([1], 1), ([2], 2)]).wfb = true ∧
     (KState.init 2 3).nump ≤ (KState.runAdds (KState.init 2 3) [([1], 1), ([2], 2)]).nump ∧
     (KState.runAdds (KState.init 2 3) [([1], 1), ([2], 2)]).nump ≤
       (KState.runAdds (KState.init 2 3) [([1], 1), ([2], 2)]).capacity ∧
     (∀ s2 xx f, (KState.add_point s2 xx f).2 = none →
       (KState.add_point s2 xx f).1.nump = s2.nump + 1)) :=
  ⟨by decide, C8_count_invariant (KState.init 2 3) [([1], 1), ([2], 2)] (by decide)⟩

/-- C2 amended: once at least one point is stored, an `add_point` whose
vector length differs from the established `dim` **and is not 1**, called in
a state where the insertion does not trigger a reallocation, fails with the
numpy broadcast error (the spec's DimensionMismatch) and returns the state
completely unchanged — count and buffer contents included.  (A length-1
vector broadcasts silently, and a call that triggers reallocation succeeds
without error, per the counterexample.) -/
theorem C2_amended_dim_mismatch (st : KState) (a : NArray) (xx : List ℚ) (f : ℚ)
    (hx : st.x = some a) (hn : st.nump ≠ 0) (hcap : st.nump + 1 ≤ st.maxp)
    (hrow : st.nump < a.rows) (hd : xx.length ≠ a.cols) (h1 : xx.length ≠ 1) :
    st.add_point xx f = (st, some KErr.dimensionMismatch) := by
  have hre : st.realloc xx.length 1 = st := by
    unfold KState.realloc
    rw [if_neg hn, if_neg (by omega)]
  have hsr : a.setRow st.nump xx = Except.error KErr.dimensionMismatch := by
    unfold NArray.setRow
    rw [if_pos hrow, if_neg hd, if_neg h1]
  have hing : st.ingest xx f = (st, some KErr.dimensionMismatch) := by
    unfold KState.ingest
    simp only [hre, hx, hsr]
  unfold KState.add_point
  rw [hing]

/-- Witness for C2: a state with `dim = 2` and one stored point rejects the
length-3 vector `[9, 9, 9]` without mutating anything. -/
theorem C2_witness :
    ((KState.add_point (KState.init 10 4) [1, 2] 3).1.x =
      some ⟨4, 2, [1, 2, 0, 0, 0, 0, 0, 0]⟩) ∧
    ((KState.add_point (KState.init 10 4) [1, 2] 3).1.nump ≠ 0) ∧
    ((KState.add_point (KState.init 10 4) [1, 2] 3).1.nump + 1 ≤
      (KState.add_point (KState.init 10 4) [1, 2] 3).1.maxp) ∧
    (([9, 9, 9] : List ℚ).length ≠ 2) ∧
    ((KState.add_point (KState.init 10 4) [1, 2] 3).1.add_point [9, 9, 9] 5 =
      ((KState.add_point (KState.init 10 4) [1, 2] 3).1, some KErr.dimensionMismatch)) :=
  ⟨by decide, by decide, by decide, by decide,
    C2_amended_dim_mismatch (KState.add_point (KState.init 10 4) [1, 2] 3).1
      ⟨4, 2, [1, 2, 0, 0, 0, 0, 0, 0]⟩ [9, 9, 9] 5
      (by decide) (by decide) (by decide) (by decide) (by decide) (by decide)⟩

theorem capacity_congr (s t : KState) (h : s.x = t.x) : s.capacity = t.capacity := by
  unfold KState.capacity
  rw [h]

theorem ingest_capacity_first (st : KState) (xx : List ℚ) (f : ℚ) (h0 : st.nump = 0) :
    (st.ingest xx f).1.capacity = st.maxp := by
  have hre : st.realloc xx.length 1 = st.alloc xx.length := by
    unfold KState.realloc
    rw [if_pos h0]
  unfold KState.ingest
  simp only [hre, KState.alloc, h0]
  cases hsr : NArray.setRow (np_zeros st.maxp xx.length) 0 xx with
  | error e =>
    simp only [hsr]
    unfold KState.capacity
    simp [np_zeros]
  | ok a2 =>
    have hsh := setRow_ok_shape (np_zeros st.maxp xx.length) 0 xx a2 (by simp [np_zeros]) hsr
    simp only [hsr]
    by_cases hlt : (0 : ℕ) < st.maxp
    · rw [if_pos (by simpa using hlt)]
      unfold KState.capacity
      simpa [np_zeros] using hsh.1
    · rw [if_neg (by simpa using hlt)]
      unfold KState.capacity
      simpa [np_zeros] using hsh.1

theorem first_alloc_capacity (s2 : KState) (xx2 : List ℚ) (f2 : ℚ) (h0 : s2.nump = 0) :
    (s2.add_point xx2 f2).1.capacity = s2.maxp := by
  have hic := ingest_capacity_first s2 xx2 f2 h0
  unfold KState.add_point
  split
  · rename_i st2 heq
    have hlc : (st2.lifecycleStep xx2 f2).1.capacity = st2.capacity :=
      capacity_congr _ _ (lifecycle_preserves st2 xx2 f2).1
    rw [hlc]
    rw [heq] at hic
    exact hic
  · rename_i st2 e heq
    rw [heq] at hic
    exact hic

/-- C5: the first insertion allocates capacity equal to the configured
`maxp` (second conjunct, for any state with count zero); and an insertion
into a full well-formed buffer (the only way a single insertion can exceed
capacity) grows both buffers to `max(2 * old_capacity, old_capacity + 1)`
and preserves all `count` already-populated rows of points and values
intact and in position. -/
theorem C5_growth_policy (st : KState) (a : NArray) (l : List ℚ) (xx : List ℚ) (f : ℚ)
    (hx : st.x = some a) (hf : st.fx = some l)
    (hrows : a.rows = st.maxp) (hdlen : a.data.length = a.rows * a.cols)
    (hflen : l.length = st.maxp) (hn : st.nump ≠ 0) (hle : st.nump ≤ st.maxp)
    (htrig : st.maxp < st.nump + 1) (hd : xx.length = a.cols) :
    (∃ a2 l2,
      (st.add_point xx f).1.x = some a2 ∧ (st.add_point xx f).1.fx = some l2 ∧
      (st.add_point xx f).1.maxp = max (st.maxp * 2) (st.maxp + 1) ∧
      a2.rows = max (st.maxp * 2) (st.maxp + 1) ∧
      a2.cols = a.cols ∧
      (∀ i, i < st.nump → rowOf a2.data a.cols i = rowOf a.data a.cols i) ∧
      l2.take st.nump = l.take st.nump) ∧
    (∀ (s2 : KState) (xx2 : List ℚ) (f2 : ℚ),
      s2.nump = 0 → (s2.add_point xx2 f2).1.capacity = s2.maxp) := by
  refine ⟨?_, fun s2 xx2 f2 h0 => first_alloc_capacity s2 xx2 f2 h0⟩
  have hMge : st.maxp + 1 ≤ max (st.maxp * 2) (st.maxp + 1) := le_max_right _ _
  have hre : st.realloc xx.length 1 =
      { st with maxp := max (st.maxp * 2) (st.maxp + 1)
              , x := some (a.resize (max (st.maxp * 2) (st.maxp + 1)) xx.length)
              , fx := some (flatResize l (max (st.maxp * 2) (st.maxp + 1))) } := by
    unfold KState.realloc
    rw [if_neg hn, if_pos htrig, hx, hf]
    rfl
  have hsr : (a.resize (max (st.maxp * 2) (st.maxp + 1)) xx.length).setRow st.nump xx =
      Except.ok ⟨max (st.maxp * 2) (st.maxp + 1), a.cols,
        writeRow (flatResize a.data (max (st.maxp * 2) (st.maxp + 1) * a.cols))
          a.cols st.nump xx⟩ := by
    unfold NArray.setRow NArray.resize
    rw [if_pos (show st.nump < max (st.maxp * 2) (st.maxp + 1) by omega),
      if_pos (show xx.length = xx.length from rfl)]
    rw [hd]
  have hing : st.ingest xx f =
      ({ st with maxp := max (st.maxp * 2) (st.maxp + 1)
               , x := some (⟨max (st.maxp * 2) (st.maxp + 1), a.cols,
                   writeRow (flatResize a.data (max (st.maxp * 2) (st.maxp + 1) * a.cols))
                     a.cols st.nump xx⟩ : NArray)
               , fx := some ((flatResize l (max (st.maxp * 2) (st.maxp + 1))).set st.nump f)
               , nump := st.nump + 1 }, none) := by
    unfold KState.ingest
    simp only [hre, hsr]
    rw [if_pos (show st.nump < (flatResize l (max (st.maxp * 2) (st.maxp + 1))).length by
      rw [flatResize_length]; omega)]
  refine ⟨⟨max (st.maxp * 2) (st.maxp + 1), a.cols,
      writeRow (flatResize a.data (max (st.maxp * 2) (st.maxp + 1) * a.cols))
        a.cols st.nump xx⟩,
    (flatResize l (max (st.maxp * 2) (st.maxp + 1))).set st.nump f,
    ?_, ?_, ?_, rfl, rfl, ?_, ?_⟩
  · unfold KState.add_point
    rw [hing]
    exact (lifecycle_preserves _ xx f).1
  · unfold KState.add_point
    rw [hing]
    exact (lifecycle_preserves _ xx f).2.1
  · unfold KState.add_point
    rw [hing]
    exact (lifecycle_preserves _ xx f).2.2.2
  · have hlen1 : a.cols * st.nump ≤ a.data.length := by
      calc a.cols * st.nump ≤ a.cols * a.rows := Nat.mul_le_mul_left _ (by omega)
        _ = a.rows * a.cols := Nat.mul_comm _ _
        _ = a.data.length := hdlen.symm
    have hlen2 : a.cols * st.nump ≤ max (st.maxp * 2) (st.maxp + 1) * a.cols := by
      calc a.cols * st.nump ≤ a.cols * max (st.maxp * 2) (st.maxp + 1) :=
            Nat.mul_le_mul_left _ (by omega)
        _ = max (st.maxp * 2) (st.maxp + 1) * a.cols := Nat.mul_comm _ _
    have hfr : (flatResize a.data (max (st.maxp * 2) (st.maxp + 1) * a.cols)).take
        (a.cols * st.nump) = a.data.take (a.cols * st.nump) :=
      flatResize_take _ _ _ hlen1 hlen2
    have hwr : (writeRow (flatResize a.data (max (st.maxp * 2) (st.maxp + 1) * a.cols))
          a.cols st.nump xx).take (a.cols * st.nump) =
        (flatResize a.data (max (st.maxp * 2) (st.maxp + 1) * a.cols)).take
          (a.cols * st.nump) :=
      writeRow_take _ _ _ _ _ (le_refl _) (by rw [flatResize_length]; exact hlen2)
    intro i hi
    exact rowOf_eq_of_take_eq _ _ a.cols i (a.cols * st.nump) (hwr.trans hfr)
      (by rw [← Nat.mul_succ]; exact Nat.mul_le_mul_left _ (by omega))
  · rw [take_set_of_le f st.nump st.nump _ (le_refl _)]
    exact flatResize_take l _ _ (by rw [hflen]; omega) (by omega)

/-- Witness for C5: a full two-slot buffer (`maxp = 2`, two stored
one-dimensional points) grows to capacity 4 on the third insertion with both
stored rows preserved, and a fresh instance with `maxp = 4` allocates
capacity 4 on the first insertion. -/
theorem C5_witness :
    ((KState.add_point (KState.add_point (KState.init 5 2) [1] 10).1 [2] 20).1.x =
      some ⟨2, 1, [1, 2]⟩) ∧
    ((KState.add_point (KState.add_point (KState.init 5 2) [1] 10).1 [2] 20).1.fx =
      some [10, 20]) ∧
    ((KState.add_point (KState.add_point (KState.init 5 2) [1] 10).1 [2] 20).1.nump = 2) ∧
    ((KState.add_point (KState.add_point (KState.init 5 2) [1] 10).1 [2] 20).1.maxp = 2) ∧
    (∃ a2 l2,
      (((KState.add_point (KState.add_point (KState.init 5 2) [1] 10).1 [2] 20).1.add_point
          [3] 30).1.x = some a2 ∧
       ((KState.add_point (KState.add_point (KState.init 5 2) [1] 10).1 [2] 20).1.add_point
          [3] 30).1.fx = some l2 ∧
       ((KState.add_point (KState.add_point (KState.init 5 2) [1] 10).1 [2] 20).1.add_point
          [3] 30).1.maxp = max (2 * 2) (2 + 1) ∧
       a2.rows = max (2 * 2) (2 + 1) ∧
       a2.cols = (⟨2, 1, [1, 2]⟩ : NArray).cols ∧
       (∀ i, i < 2 → rowOf a2.data (⟨2, 1, [1, 2]⟩ : NArray).cols i =
         rowOf (⟨2, 1, [1, 2]⟩ : NArray).data (⟨2, 1, [1, 2]⟩ : NArray).cols i) ∧
       l2.take 2 = ([10, 20] : List ℚ).take 2)) :=
  ⟨by decide, by decide, by decide, by decide,
    (C5_growth_policy (KState.add_point (KState.add_point (KState.init 5 2) [1] 10).1 [2] 20).1
      ⟨2, 1, [1, 2]⟩ [10, 20] [3] 30 (by decide) (by decide) (by decide) (by decide)
      (by decide) (by decide) (by decide) (by decide) (by decide)).1⟩

end PySOT
